import Mathlib

/-!
Verification of the media-server request handlers (`src/main.py`).

The handlers are embedded shallowly:

* strings are Lean `String`s, operated on through their character lists;
* `time.time()` is an explicit `now : Int` argument;
* `hmac.new(secret, msg, sha256).hexdigest()` is an abstract function field
  `hmacSha256Hex : String → String → String` of the configuration
  (`hmac.compare_digest` on the ASCII hex digests is string equality);
* `uuid.uuid4().hex` is the 32-lowercase-hex-digit rendering of an explicit
  128-bit random value `uuidVal : Nat` passed to the upload handler;
* the filesystem is an association list from resolved absolute paths
  (component lists) to entries (regular file with byte content, or
  directory); the current working directory `cwd` is an explicit component
  list, so `MEDIA_DIR = Path("media")` resolves to `cwd ++ ["media"]`;
* raising `HTTPException` is returning the corresponding error value.
-/

namespace MediaServer

/-- Python's `str.split(sep)` for a one-character separator, on char lists:
`acc` holds the current field reversed. -/
def splitChAux (sep : Char) : List Char → List Char → List (List Char)
  | [], acc => [acc.reverse]
  | c :: rest, acc =>
    if c = sep then acc.reverse :: splitChAux sep rest []
    else splitChAux sep rest (c :: acc)

/-- Python's `s.split(sep)` for a one-character separator. -/
def pySplit (s : String) (sep : Char) : List String :=
  (splitChAux sep s.toList []).map String.mk

/-- Whitespace characters stripped by Python's `int(...)` (ASCII subset). -/
def isPySpace (c : Char) : Bool :=
  c = ' ' || c = '\t' || c = '\n' || c = '\r' || c = Char.ofNat 11 || c = Char.ofNat 12

/-- Tail of a Python integer literal after the first digit: digits with
single underscores allowed between digits. -/
def digitTail : List Char → Bool
  | [] => true
  | '_' :: rest =>
    match rest with
    | [] => false
    | c :: rest' => c.isDigit && digitTail rest'
  | c :: rest => c.isDigit && digitTail rest

/-- A nonempty run of digits with single underscores between digits. -/
def digitRun (cs : List Char) : Bool :=
  match cs with
  | [] => false
  | c :: rest => c.isDigit && digitTail rest

/-- Decimal value of a list of digit characters. -/
def digitsValue (cs : List Char) : Nat :=
  cs.foldl (fun a c => 10 * a + (c.toNat - 48)) 0

/-- Python's `int(s)`: strips whitespace, accepts an optional sign, then a
digit run (underscores permitted between digits); `none` models
`ValueError`. -/
def pyIntParse (s : String) : Option Int :=
  let cs := ((s.toList.dropWhile isPySpace).reverse.dropWhile isPySpace).reverse
  match cs with
  | '+' :: rest =>
    if digitRun rest then some (Int.ofNat (digitsValue (rest.filter (fun c => c != '_')))) else none
  | '-' :: rest =>
    if digitRun rest then some (-(Int.ofNat (digitsValue (rest.filter (fun c => c != '_'))))) else none
  | rest =>
    if digitRun rest then some (Int.ofNat (digitsValue (rest.filter (fun c => c != '_')))) else none

/-- The four ways `verify_upload_token` raises `HTTPException(401, ...)`. -/
inductive AuthError
  | missingToken
  | malformed
  | expired
  | invalidSignature
deriving DecidableEq

/-- HTTP status attached to each auth failure (all raises in
`verify_upload_token` use `status_code=401`). -/
def authStatus : AuthError → Nat := fun _ => 401

/-- Process configuration: `SHARED_SECRET`, `TOKEN_EXPIRY_SECONDS`
(default 900) and the HMAC-SHA256 hex-digest primitive, kept abstract. -/
structure AuthConfig where
  secret : String
  expirySeconds : Int
  hmacSha256Hex : String → String → String

/-- `verify_upload_token` from `src/main.py`: returns `some e` where the
Python code raises `HTTPException` with error `e`, and `none` where it
falls through (success). -/
def verify_upload_token (cfg : AuthConfig) (now : Int) (token : String) : Option AuthError :=
  if token = "" then some .missingToken
  else
    match pySplit token '.' with
    | [timestampStr, signature] =>
      match pyIntParse timestampStr with
      | none => some .malformed
      | some timestamp =>
        if now - timestamp > cfg.expirySeconds then some .expired
        else if signature = cfg.hmacSha256Hex cfg.secret timestampStr then none
        else some .invalidSignature
    | _ => some .malformed

/-- Path components of a string as pathlib keeps them: split on `/`,
dropping empty components and `"."`. -/
def pathComponents (s : String) : List String :=
  (pySplit s '/').filter (fun c => c != "" && c != ".")

/-- Whether pathlib treats the string as an absolute path
(`MEDIA_DIR / filename` discards `MEDIA_DIR` in that case). -/
def isAbsolutePath (s : String) : Bool :=
  match s.toList with
  | [] => false
  | c :: _ => c = '/'

/-- `Path.resolve()` on an absolute component list without symlinks:
`".."` pops the last component (at the root it is a no-op). -/
def normalizeComponents (cs : List String) : List String :=
  cs.foldl (fun acc c => if c = ".." then acc.dropLast else acc ++ [c]) []

/-- Components of `MEDIA_DIR` seen from the working directory `cwd`:
`MEDIA_DIR = Path("media")`. -/
def mediaRoot (cwd : List String) : List String := cwd ++ ["media"]

/-- `MEDIA_DIR.resolve()`. -/
def mediaRootResolved (cwd : List String) : List String :=
  normalizeComponents (mediaRoot cwd)

/-- `(MEDIA_DIR / filename).resolve()`. -/
def resolveJoined (cwd : List String) (filename : String) : List String :=
  if isAbsolutePath filename then normalizeComponents (pathComponents filename)
  else normalizeComponents (mediaRoot cwd ++ pathComponents filename)

/-- A directory component list is in resolved form: no `".."`, `"."` or
empty components (true of any `os.getcwd()` result). -/
def normalizedDir (cs : List String) : Bool :=
  cs.all (fun c => c != ".." && c != "." && c != "")

/-- A filesystem entry: a regular file with its byte content, or a
directory. -/
inductive Entry
  | file (content : List Nat)
  | dir
deriving DecidableEq

/-- The filesystem: an association list from resolved absolute paths
(component lists) to entries; lookups take the first match, so a prepended
entry shadows (overwrites) an older one with the same path. -/
abbrev FS := List (List String × Entry)

/-- Look a resolved path up in the filesystem. -/
def fsLookup (fs : FS) (p : List String) : Option Entry :=
  match fs with
  | [] => none
  | (k, e) :: rest => if k = p then some e else fsLookup rest p

/-- `os.remove` on a path: drop its entry. -/
def fsErase (fs : FS) (p : List String) : FS :=
  fs.filter (fun kv => kv.1 != p)

/-- Python's `str.lower()` (ASCII range, which covers the allow-list). -/
def lowerStr (s : String) : String :=
  String.mk (s.toList.map Char.toLower)

/-- `Path(s).name`: the final path component (empty for `"."`, `"/"`, …). -/
def pyName (s : String) : String :=
  ((pathComponents s).getLast?).getD ""

/-- Index of the last `'.'` in a character list, if any (`str.rfind('.')`
restricted to a found result). -/
def lastDotIdx (cs : List Char) : Option Nat :=
  ((List.range cs.length).filter (fun i => cs.getD i ' ' == '.')).getLast?

/-- `Path(s).suffix`: the extension of the final component, `""` unless the
last dot sits strictly inside the name (`0 < i < len(name) - 1`). -/
def pySuffix (s : String) : String :=
  let cs := (pyName s).toList
  match lastDotIdx cs with
  | none => ""
  | some i => if 0 < i && i < cs.length - 1 then String.mk (cs.drop i) else ""

/-- `ALLOWED_EXTENSIONS` from `src/main.py`. -/
def ALLOWED_EXTENSIONS : List String :=
  [".jpg", ".jpeg", ".png", ".gif", ".webp", ".svg", ".bmp"]

/-- `MAX_FILE_SIZE = 10 * 1024 * 1024`. -/
def MAX_FILE_SIZE : Nat := 10 * 1024 * 1024

/-- One hex digit, lowercase, as Python's `"%x"` formatting produces. -/
def hexDigitChar (n : Nat) : Char :=
  if n < 10 then Char.ofNat (48 + n) else Char.ofNat (97 + (n - 10))

/-- Big-endian hex digits: `natToHexAux k n acc` prepends the `k` low hex
digits of `n` to `acc`. -/
def natToHexAux : Nat → Nat → List Char → List Char
  | 0, _, acc => acc
  | k + 1, n, acc => natToHexAux k (n / 16) (hexDigitChar (n % 16) :: acc)

/-- `uuid.uuid4().hex` for the 128-bit random value `n`: exactly 32
lowercase hex digits. -/
def natToHex32 (n : Nat) : String :=
  String.mk (natToHexAux 32 n [])

/-- Failures of the upload handler. -/
inductive UploadError
  | auth (e : AuthError)
  | unsupportedType
  | tooLarge
deriving DecidableEq

/-- HTTP status of each upload failure (`verify_upload_token` raises 401,
the two validation raises in `upload_image` use `status_code=400`). -/
def uploadErrorStatus : UploadError → Nat
  | .auth e => authStatus e
  | .unsupportedType => 400
  | .tooLarge => 400

/-- Result of the upload handler; every constructor carries the filesystem
after the request (unchanged on failure, since every raise in the source
happens before the `open(..., "wb")` write). -/
inductive UploadOutcome
  | error (e : UploadError) (fs : FS)
  | ok (url : String) (filename : String) (fs : FS)
deriving DecidableEq

/-- `upload_image` from `src/main.py`: verify the token, validate the
lowercased suffix against the allow-list, check the size bound, then write
`uuid4().hex + ext` under `MEDIA_DIR` and return the public URL
(`f"{request.base_url}media/{unique_name}"`; Starlette's `base_url` ends
with `"/"`). -/
def upload_image (cfg : AuthConfig) (now : Int) (cwd : List String) (fs : FS)
    (requestBaseUrl : String) (origFilename : String) (contents : List Nat)
    (uuidVal : Nat) (token : String) : UploadOutcome :=
  match verify_upload_token cfg now token with
  | some e => .error (.auth e) fs
  | none =>
    if lowerStr (pySuffix origFilename) ∉ ALLOWED_EXTENSIONS then
      .error .unsupportedType fs
    else if contents.length > MAX_FILE_SIZE then
      .error .tooLarge fs
    else
      .ok (requestBaseUrl ++ "media/" ++ (natToHex32 uuidVal ++ lowerStr (pySuffix origFilename)))
        (natToHex32 uuidVal ++ lowerStr (pySuffix origFilename))
        ((mediaRoot cwd ++ [natToHex32 uuidVal ++ lowerStr (pySuffix origFilename)],
          Entry.file contents) :: fs)

/-- Result of the fetch handler: `invalidPath` is `HTTPException(400)`,
`notFound` is `HTTPException(404)`, `served` is a successful
`FileResponse`, and `responseError` is `FileResponse` handed a path whose
entry is not a regular file (it errors when sending). -/
inductive FetchOutcome
  | invalidPath
  | notFound
  | served (content : List Nat)
  | responseError
deriving DecidableEq

/-- HTTP status of each fetch outcome. -/
def fetchStatus : FetchOutcome → Nat
  | .invalidPath => 400
  | .notFound => 404
  | .served _ => 200
  | .responseError => 500

/-- `get_image` from `src/main.py`: containment check
(`file_path.resolve().is_relative_to(MEDIA_DIR.resolve())`), then
`file_path.exists()`, then `FileResponse(file_path)`. -/
def get_image (cwd : List String) (fs : FS) (filename : String) : FetchOutcome :=
  if (mediaRootResolved cwd).isPrefixOf (resolveJoined cwd filename) then
    match fsLookup fs (resolveJoined cwd filename) with
    | none => .notFound
    | some (.file b) => .served b
    | some .dir => .responseError
  else .invalidPath

/-- Result of the delete handler: `isADirectory` is `os.remove` raising on
a directory (unhandled by the source). -/
inductive DeleteOutcome
  | authFailed (e : AuthError)
  | invalidPath
  | notFound
  | isADirectory
  | ok (newFs : FS) (msg : String)
deriving DecidableEq

/-- `delete_image` from `src/main.py`: verify the token, run the same
containment and existence checks as `get_image`, then `os.remove` the file
and return `{"detail": f"Deleted {filename}"}`. -/
def delete_image (cfg : AuthConfig) (now : Int) (cwd : List String) (fs : FS)
    (filename : String) (token : String) : DeleteOutcome :=
  match verify_upload_token cfg now token with
  | some e => .authFailed e
  | none =>
    if (mediaRootResolved cwd).isPrefixOf (resolveJoined cwd filename) then
      match fsLookup fs (resolveJoined cwd filename) with
      | none => .notFound
      | some .dir => .isADirectory
      | some (.file _) =>
        .ok (fsErase fs (resolveJoined cwd filename)) ("Deleted " ++ filename)
    else .invalidPath

/-- One row of the listing response. -/
structure ImageEntry where
  filename : String
  url : String
deriving DecidableEq

/-- The listing response `{count, images}`. -/
structure ListResult where
  count : Nat
  images : List ImageEntry
deriving DecidableEq

/-- Whether an entry is a regular file (`Path.is_file()`). -/
def isFileEntry : Entry → Bool
  | .file _ => true
  | .dir => false

/-- `MEDIA_DIR.iterdir()` filtered by `is_file()`: names of regular-file
entries whose path is a direct child of the media root. -/
def directFileNames (cwd : List String) (fs : FS) : List String :=
  fs.filterMap (fun kv =>
    if kv.1.dropLast == mediaRootResolved cwd && isFileEntry kv.2 then kv.1.getLast?
    else none)

/-- `list_images` from `src/main.py`: one `{filename, url}` row per
regular file directly under `MEDIA_DIR`, with
`url = f"{request.base_url}media/{name}"`, and `count = len(images)`. -/
def list_images (cwd : List String) (fs : FS) (requestBaseUrl : String) : ListResult :=
  let images := (directFileNames cwd fs).map
    (fun name => ImageEntry.mk name (requestBaseUrl ++ "media/" ++ name))
  ListResult.mk images.length images

/-- One upload request: the client-supplied filename, the payload, and
the 128-bit random value drawn by `uuid4()` for it. -/
structure UploadJob where
  origName : String
  contents : List Nat
  uuidVal : Nat

/-- The stored name a job receives: `uuid4().hex + ext`. -/
def jobName (j : UploadJob) : String :=
  natToHex32 j.uuidVal ++ lowerStr (pySuffix j.origName)

/-- The filesystem entry a successful upload of `j` creates. -/
def jobEntry (cwd : List String) (j : UploadJob) : List String × Entry :=
  (mediaRoot cwd ++ [jobName j], Entry.file j.contents)

/-- A sequence of upload requests processed in order, threading the
filesystem through (failed uploads leave it unchanged). -/
def uploadMany (cfg : AuthConfig) (now : Int) (cwd : List String)
    (baseUrl token : String) : FS → List UploadJob → FS
  | fs, [] => fs
  | fs, j :: rest =>
    match upload_image cfg now cwd fs baseUrl j.origName j.contents j.uuidVal token with
    | .ok _ _ fs' => uploadMany cfg now cwd baseUrl token fs' rest
    | .error _ fsE => uploadMany cfg now cwd baseUrl token fsE rest

/-! Concrete fixtures used by witnesses and counterexamples. -/

/-- A concrete configuration with a toy (injective-enough) digest
function; the expiry window is the source default of 900 seconds. -/
def cfg0 : AuthConfig := AuthConfig.mk "key" 900 (fun sec msg => sec ++ "|" ++ msg)

/-- A concrete working directory. -/
def cwd0 : List String := ["home", "user"]

/-- The resolved media root under `cwd0`. -/
def root0 : List String := ["home", "user", "media"]

/-- A filesystem holding just the (empty) media directory. -/
def fs0 : FS := [(root0, Entry.dir)]

/-- A token correctly signed under `cfg0` for timestamp 5. -/
def tok0 : String := "5.key|5"

/-- A filesystem holding one stored image `a.png` inside the media root. -/
def fs1 : FS := [(["home", "user", "media", "a.png"], Entry.file [7]), (root0, Entry.dir)]

/-- A lowercase hexadecimal digit, as `uuid4().hex` produces. -/
abbrev isHexDigitChar (c : Char) : Prop :=
  ('0' ≤ c ∧ c ≤ '9') ∨ ('a' ≤ c ∧ c ≤ 'f')

/-- C2: verify classifies failures in order — `MissingToken` on the empty
token; otherwise `Malformed` when the token does not split on `'.'` into
exactly two parts or the first part is not a valid integer; otherwise
`Expired` when `now - timestamp > expirySeconds`; every auth failure maps
to HTTP 401. -/
theorem C2_verify_failure_order (cfg : AuthConfig) (now : Int) (token : String) :
    (token = "" → verify_upload_token cfg now token = some .missingToken) ∧
    (token ≠ "" → (pySplit token '.').length ≠ 2 →
      verify_upload_token cfg now token = some .malformed) ∧
    (token ≠ "" → ∀ tsStr sig : String, pySplit token '.' = [tsStr, sig] →
      pyIntParse tsStr = none →
      verify_upload_token cfg now token = some .malformed) ∧
    (token ≠ "" → ∀ (tsStr sig : String) (t : Int), pySplit token '.' = [tsStr, sig] →
      pyIntParse tsStr = some t → now - t > cfg.expirySeconds →
      verify_upload_token cfg now token = some .expired) ∧
    (∀ e, authStatus e = 401) := by
  refine ⟨?_, ?_, ?_, ?_, fun _ => rfl⟩
  · intro h
    rw [h]
    rfl
  · intro hne hlen
    unfold verify_upload_token
    rw [if_neg hne]
    rcases h : pySplit token '.' with _ | ⟨a, _ | ⟨b, _ | ⟨c, rest⟩⟩⟩
    · rfl
    · rfl
    · rw [h] at hlen
      simp at hlen
    · rfl
  · intro hne tsStr sig hsplit hparse
    unfold verify_upload_token
    rw [if_neg hne]
    simp only [hsplit, hparse]
  · intro hne tsStr sig t hsplit hparse hexp
    unfold verify_upload_token
    rw [if_neg hne]
    simp only [hsplit, hparse]
    rw [if_pos hexp]

/-- C2 witness: each failure class exercised at a concrete input. -/
theorem C2_witness :
    verify_upload_token cfg0 1000 "" = some .missingToken ∧
    verify_upload_token cfg0 1000 "nodots" = some .malformed ∧
    verify_upload_token cfg0 1000 "x.y" = some .malformed ∧
    verify_upload_token cfg0 1000 "50.key|50" = some .expired ∧
    authStatus .expired = 401 :=
  ⟨(C2_verify_failure_order cfg0 1000 "").1 rfl,
   (C2_verify_failure_order cfg0 1000 "nodots").2.1 (by decide) (by decide),
   (C2_verify_failure_order cfg0 1000 "x.y").2.2.1 (by decide) "x" "y" (by decide) (by decide),
   (C2_verify_failure_order cfg0 1000 "50.key|50").2.2.2.1 (by decide) "50" "key|50" 50
     (by decide) (by decide) (by decide),
   (C2_verify_failure_order cfg0 1000 "x").2.2.2.2 .expired⟩

/-- C3: a well-formed, unexpired token verifies iff its signature part
equals the HMAC-SHA256 hex digest of the timestamp string under the shared
secret; when it differs, verify fails `InvalidSignature`. -/
theorem C3_signature_check (cfg : AuthConfig) (now t : Int) (tsStr sig token : String)
    (hsplit : pySplit token '.' = [tsStr, sig])
    (hts : pyIntParse tsStr = some t)
    (hfresh : now - t ≤ cfg.expirySeconds) :
    (verify_upload_token cfg now token = none ↔
      sig = cfg.hmacSha256Hex cfg.secret tsStr) ∧
    (sig ≠ cfg.hmacSha256Hex cfg.secret tsStr →
      verify_upload_token cfg now token = some .invalidSignature) := by
  have hne : token ≠ "" := by
    intro h
    rw [h] at hsplit
    have hlen := congrArg List.length hsplit
    simp [pySplit, splitChAux] at hlen
  have hver : verify_upload_token cfg now token =
      if sig = cfg.hmacSha256Hex cfg.secret tsStr then none
      else some .invalidSignature := by
    unfold verify_upload_token
    rw [if_neg hne]
    simp only [hsplit, hts]
    rw [if_neg (not_lt.mpr hfresh)]
  rw [hver]
  by_cases hs : sig = cfg.hmacSha256Hex cfg.secret tsStr
  · rw [if_pos hs]
    exact ⟨⟨fun _ => hs, fun _ => rfl⟩, fun h => absurd hs h⟩
  · rw [if_neg hs]
    exact ⟨⟨fun h => by simp at h, fun h => absurd h hs⟩, fun _ => rfl⟩

/-- C3 witness: a token with timestamp equal to `now`, correctly signed,
verifies; a tampered signature of identical length fails
`InvalidSignature`. -/
theorem C3_witness :
    verify_upload_token cfg0 5 "5.key|5" = none ∧
    verify_upload_token cfg0 5 "5.key|6" = some .invalidSignature :=
  ⟨((C3_signature_check cfg0 5 5 "5" "key|5" "5.key|5" (by decide) (by decide)
      (by decide)).1).mpr (by decide),
   (C3_signature_check cfg0 5 5 "5" "key|6" "5.key|6" (by decide) (by decide)
      (by decide)).2 (by decide)⟩

/-- C10: the expiry check bounds token age from one side only — a
well-formed token whose timestamp lies strictly in the future never fails
`Expired` (for a nonnegative expiry window), and with a correct signature
it verifies. -/
theorem C10_future_timestamp (cfg : AuthConfig) (now t : Int) (tsStr sig token : String)
    (hexp : 0 ≤ cfg.expirySeconds)
    (hsplit : pySplit token '.' = [tsStr, sig])
    (hts : pyIntParse tsStr = some t)
    (hfut : now < t) :
    verify_upload_token cfg now token ≠ some .expired ∧
    (sig = cfg.hmacSha256Hex cfg.secret tsStr →
      verify_upload_token cfg now token = none) := by
  have hne : token ≠ "" := by
    intro h
    rw [h] at hsplit
    have hlen := congrArg List.length hsplit
    simp [pySplit, splitChAux] at hlen
  have hfresh : ¬ now - t > cfg.expirySeconds := by omega
  have hver : verify_upload_token cfg now token =
      if sig = cfg.hmacSha256Hex cfg.secret tsStr then none
      else some .invalidSignature := by
    unfold verify_upload_token
    rw [if_neg hne]
    simp only [hsplit, hts]
    rw [if_neg hfresh]
  rw [hver]
  by_cases hs : sig = cfg.hmacSha256Hex cfg.secret tsStr
  · rw [if_pos hs]
    exact ⟨by simp, fun _ => rfl⟩
  · rw [if_neg hs]
    exact ⟨by simp, fun h => absurd h hs⟩

/-- C10 witness: a token dated far in the future verifies under `cfg0`. -/
theorem C10_witness :
    verify_upload_token cfg0 5 "1000000.key|1000000" ≠ some .expired ∧
    verify_upload_token cfg0 5 "1000000.key|1000000" = none :=
  ⟨(C10_future_timestamp cfg0 5 1000000 "1000000" "key|1000000" "1000000.key|1000000"
      (by decide) (by decide) (by decide) (by decide)).1,
   (C10_future_timestamp cfg0 5 1000000 "1000000" "key|1000000" "1000000.key|1000000"
      (by decide) (by decide) (by decide) (by decide)).2 (by decide)⟩

/-- Dropping every entry at `p` makes a lookup of `p` fail. -/
theorem fsLookup_fsErase (fs : FS) (p : List String) :
    fsLookup (fsErase fs p) p = none := by
  induction fs with
  | nil => rfl
  | cons kv rest ih =>
    by_cases h : kv.1 = p
    · simpa [fsErase, List.filter_cons, h] using ih
    · simpa [fsErase, List.filter_cons, h, fsLookup] using ih

/-- C1 (amended): a filename whose resolved storage-root-joined path is
not contained within the resolved storage root — which covers
`../../etc/passwd` and absolute paths outside the root — makes both fetch
and delete fail `InvalidPath` (HTTP 400) for every filesystem state, i.e.
before any filesystem read or removal. -/
theorem C1_path_containment (cfg : AuthConfig) (now : Int) (cwd : List String)
    (fs : FS) (filename token : String)
    (hout : (mediaRootResolved cwd).isPrefixOf (resolveJoined cwd filename) = false)
    (htok : verify_upload_token cfg now token = none) :
    get_image cwd fs filename = .invalidPath ∧
    delete_image cfg now cwd fs filename token = .invalidPath ∧
    fetchStatus .invalidPath = 400 := by
  refine ⟨?_, ?_, rfl⟩
  · unfold get_image
    rw [hout]
    simp
  · unfold delete_image
    rw [htok]
    rw [hout]
    simp

/-- C1 witness: `../../etc/passwd` and the absolute `/etc/passwd` are
rejected under the concrete working directory `cwd0`. -/
theorem C1_witness :
    get_image cwd0 fs0 "../../etc/passwd" = .invalidPath ∧
    delete_image cfg0 5 cwd0 fs0 "../../etc/passwd" tok0 = .invalidPath ∧
    get_image cwd0 fs0 "/etc/passwd" = .invalidPath :=
  ⟨(C1_path_containment cfg0 5 cwd0 fs0 "../../etc/passwd" tok0 (by decide) (by decide)).1,
   (C1_path_containment cfg0 5 cwd0 fs0 "../../etc/passwd" tok0 (by decide) (by decide)).2.1,
   (C1_path_containment cfg0 5 cwd0 fs0 "/etc/passwd" tok0 (by decide) (by decide)).1⟩

/-- C1 counterexample: the filename `../media/evil.png` contains a
parent-directory traversal sequence, yet neither fetch nor delete fails
`InvalidPath` — the resolved path lands back inside the storage root
(whose final component is always `media`), so the containment check
passes and both handlers proceed to the existence check. -/
theorem C1_counterexample :
    (pySplit "../media/evil.png" '/').contains ".." = true ∧
    get_image cwd0 fs0 "../media/evil.png" ≠ .invalidPath ∧
    delete_image cfg0 5 cwd0 fs0 "../media/evil.png" tok0 ≠ .invalidPath := by
  refine ⟨by decide, by decide, by decide⟩

/-- C7 (amended): for a filename that passes the containment check, fetch
fails `NotFound` iff nothing at all exists at the resolved path (the
source tests `Path.exists()`, not `is_file()`); a regular file there is
returned verbatim; a directory there (e.g. filename `.`) yields neither
`NotFound` nor file content — `FileResponse` errors at send time. -/
theorem C7_fetch_notfound (cwd : List String) (fs : FS) (filename : String)
    (hin : (mediaRootResolved cwd).isPrefixOf (resolveJoined cwd filename) = true) :
    (get_image cwd fs filename = .notFound ↔
      fsLookup fs (resolveJoined cwd filename) = none) ∧
    (∀ b, fsLookup fs (resolveJoined cwd filename) = some (.file b) →
      get_image cwd fs filename = .served b) ∧
    (fsLookup fs (resolveJoined cwd filename) = some .dir →
      get_image cwd fs filename = .responseError) := by
  unfold get_image
  rw [hin]
  cases h : fsLookup fs (resolveJoined cwd filename) with
  | none => simp
  | some e => cases e <;> simp

/-- C7 witness: a missing name is `NotFound`, a stored file is served. -/
theorem C7_witness :
    get_image cwd0 fs1 "b.png" = .notFound ∧
    get_image cwd0 fs1 "a.png" = .served [7] :=
  ⟨((C7_fetch_notfound cwd0 fs1 "b.png" (by decide)).1).mpr (by decide),
   (C7_fetch_notfound cwd0 fs1 "a.png" (by decide)).2.1 [7] (by decide)⟩

/-- C7 counterexample: the filename `.` resolves to the media root itself,
passes the containment check, and no regular file exists at that resolved
path — yet fetch does not fail `NotFound` (and serves no bytes either):
the `exists()` test sees the directory. -/
theorem C7_counterexample :
    (mediaRootResolved cwd0).isPrefixOf (resolveJoined cwd0 ".") = true ∧
    fsLookup fs0 (resolveJoined cwd0 ".") = some Entry.dir ∧
    (∀ b, fsLookup fs0 (resolveJoined cwd0 ".") ≠ some (Entry.file b)) ∧
    get_image cwd0 fs0 "." ≠ .notFound ∧
    (∀ b, get_image cwd0 fs0 "." ≠ .served b) := by
  have hg : get_image cwd0 fs0 "." = .responseError := by decide
  have hl : fsLookup fs0 (resolveJoined cwd0 ".") = some Entry.dir := by decide
  refine ⟨by decide, hl, ?_, ?_, ?_⟩
  · intro b h
    rw [hl] at h
    simp at h
  · rw [hg]
    simp
  · intro b
    rw [hg]
    simp

/-- C8: a successful delete removes the file and returns the confirmation
message `Deleted <filename>`; afterwards a fetch of that filename and a
second delete with the same token both fail `NotFound` — delete is not
idempotent. -/
theorem C8_delete_then_notfound (cfg : AuthConfig) (now : Int) (cwd : List String)
    (fs fs' : FS) (filename token msg : String)
    (hdel : delete_image cfg now cwd fs filename token = .ok fs' msg) :
    msg = "Deleted " ++ filename ∧
    fsLookup fs' (resolveJoined cwd filename) = none ∧
    get_image cwd fs' filename = .notFound ∧
    delete_image cfg now cwd fs' filename token = .notFound := by
  unfold delete_image at hdel
  cases hv : verify_upload_token cfg now token with
  | some e =>
    rw [hv] at hdel
    simp at hdel
  | none =>
    rw [hv] at hdel
    cases hin : (mediaRootResolved cwd).isPrefixOf (resolveJoined cwd filename) with
    | false =>
      rw [hin] at hdel
      simp at hdel
    | true =>
      rw [hin] at hdel
      cases hl : fsLookup fs (resolveJoined cwd filename) with
      | none =>
        rw [hl] at hdel
        simp at hdel
      | some e =>
        cases e with
        | dir =>
          rw [hl] at hdel
          simp at hdel
        | file b =>
          rw [hl] at hdel
          simp at hdel
          obtain ⟨hfs, hmsg⟩ := hdel
          have hnone : fsLookup fs' (resolveJoined cwd filename) = none := by
            rw [← hfs]
            exact fsLookup_fsErase fs (resolveJoined cwd filename)
          refine ⟨hmsg.symm, hnone, ?_, ?_⟩
          · unfold get_image
            rw [hin, hnone]
            rfl
          · unfold delete_image
            rw [hv, hin, hnone]
            rfl

/-- C8 witness: deleting the stored `a.png`, then fetching and deleting it
again, both yield `NotFound`. -/
theorem C8_witness :
    get_image cwd0 fs0 "a.png" = .notFound ∧
    delete_image cfg0 5 cwd0 fs0 "a.png" tok0 = .notFound :=
  ⟨(C8_delete_then_notfound cfg0 5 cwd0 fs1 fs0 "a.png" tok0 "Deleted a.png" (by decide)).2.2.1,
   (C8_delete_then_notfound cfg0 5 cwd0 fs1 fs0 "a.png" tok0 "Deleted a.png" (by decide)).2.2.2⟩

/-! Helper lemmas about strings, paths and hex rendering. -/

theorem strToList_append (a b : String) : (a ++ b).toList = a.toList ++ b.toList := by
  cases a
  cases b
  rfl

theorem strMk_toList (s : String) : String.mk s.toList = s := by
  cases s
  rfl

theorem splitChAux_no_sep (sep : Char) :
    ∀ cs : List Char, sep ∉ cs → ∀ acc, splitChAux sep cs acc = [acc.reverse ++ cs] := by
  intro cs
  induction cs with
  | nil =>
    intro _ acc
    simp [splitChAux]
  | cons c rest ih =>
    intro h acc
    have hcs : ¬ c = sep := by
      intro e
      exact h (by rw [e]; exact List.mem_cons_self _ _)
    have hrest : sep ∉ rest := fun hm => h (List.mem_cons_of_mem _ hm)
    simp only [splitChAux]
    rw [if_neg hcs, ih hrest (c :: acc)]
    simp

theorem pathComponents_single (name : String) (hslash : '/' ∉ name.toList)
    (hne : name ≠ "") (hdot : name ≠ ".") :
    pathComponents name = [name] := by
  unfold pathComponents pySplit
  rw [splitChAux_no_sep '/' name.toList hslash []]
  simp only [List.reverse_nil, List.nil_append, List.map_cons, List.map_nil]
  rw [strMk_toList]
  simp [hne, hdot]

theorem foldl_normalize_no_dotdot :
    ∀ cs acc : List String, (∀ c ∈ cs, c ≠ "..") →
      cs.foldl (fun acc c => if c = ".." then acc.dropLast else acc ++ [c]) acc = acc ++ cs := by
  intro cs
  induction cs with
  | nil =>
    intro acc _
    simp
  | cons c rest ih =>
    intro acc h
    rw [List.foldl_cons, if_neg (h c (List.mem_cons_self _ _)),
      ih (acc ++ [c]) (fun c' hc' => h c' (List.mem_cons_of_mem _ hc'))]
    simp

theorem normalize_no_dotdot (cs : List String) (h : ∀ c ∈ cs, c ≠ "..") :
    normalizeComponents cs = cs := by
  unfold normalizeComponents
  rw [foldl_normalize_no_dotdot cs [] h]
  simp

theorem normalizedDir_mem (cs : List String) (h : normalizedDir cs = true) :
    ∀ c ∈ cs, c ≠ ".." ∧ c ≠ "." ∧ c ≠ "" := by
  intro c hc
  have hx := List.all_eq_true.mp h c hc
  simp at hx
  exact ⟨hx.1.1, hx.1.2, hx.2⟩

theorem mediaRootResolved_normalized (cwd : List String) (hcwd : normalizedDir cwd = true) :
    mediaRootResolved cwd = mediaRoot cwd := by
  unfold mediaRootResolved mediaRoot
  apply normalize_no_dotdot
  intro c hc
  rcases List.mem_append.mp hc with h | h
  · exact (normalizedDir_mem cwd hcwd c h).1
  · simp at h
    rw [h]
    decide

theorem natToHexAux_acc (k : Nat) :
    ∀ (n : Nat) (acc : List Char), natToHexAux k n acc = natToHexAux k n [] ++ acc := by
  induction k with
  | zero =>
    intro n acc
    simp [natToHexAux]
  | succ k ih =>
    intro n acc
    simp only [natToHexAux]
    rw [ih (n / 16) (hexDigitChar (n % 16) :: acc), ih (n / 16) [hexDigitChar (n % 16)]]
    simp

theorem natToHexAux_length (k : Nat) : ∀ n, (natToHexAux k n []).length = k := by
  induction k with
  | zero =>
    intro n
    rfl
  | succ k ih =>
    intro n
    simp only [natToHexAux]
    rw [natToHexAux_acc]
    simp [ih]

theorem natToHexAux_mem (P : Char → Prop) (hP : ∀ m, m < 16 → P (hexDigitChar m)) :
    ∀ (k n : Nat) (acc : List Char), (∀ c ∈ acc, P c) → ∀ c ∈ natToHexAux k n acc, P c := by
  intro k
  induction k with
  | zero =>
    intro n acc hacc c hc
    exact hacc c hc
  | succ k ih =>
    intro n acc hacc c hc
    simp only [natToHexAux] at hc
    refine ih (n / 16) _ ?_ c hc
    intro c' hc'
    rcases List.mem_cons.mp hc' with h | h
    · rw [h]
      exact hP _ (Nat.mod_lt _ (by norm_num))
    · exact hacc c' h

theorem hexDigitChar_hex (m : Nat) (h : m < 16) : isHexDigitChar (hexDigitChar m) := by
  interval_cases m <;> decide

theorem hexDigitChar_ne_slash (m : Nat) (h : m < 16) : hexDigitChar m ≠ '/' := by
  interval_cases m <;> decide

theorem uniqueName_toList (uuidVal : Nat) (ext : String) :
    (natToHex32 uuidVal ++ ext).toList = natToHexAux 32 uuidVal [] ++ ext.toList := by
  rw [strToList_append]
  rfl

theorem uniqueName_length (uuidVal : Nat) (ext : String) :
    (natToHex32 uuidVal ++ ext).toList.length = 32 + ext.toList.length := by
  rw [uniqueName_toList]
  simp [natToHexAux_length]

theorem uniqueName_ne (uuidVal : Nat) (ext : String) :
    natToHex32 uuidVal ++ ext ≠ "" ∧ natToHex32 uuidVal ++ ext ≠ "." ∧
      natToHex32 uuidVal ++ ext ≠ ".." := by
  have hlen := uniqueName_length uuidVal ext
  refine ⟨?_, ?_, ?_⟩ <;> intro h <;> rw [h] at hlen <;> simp at hlen <;> omega

theorem allowed_ext_no_slash (ext : String) (h : ext ∈ ALLOWED_EXTENSIONS) :
    '/' ∉ ext.toList := by
  simp only [ALLOWED_EXTENSIONS, List.mem_cons, List.not_mem_nil, or_false] at h
  rcases h with h | h | h | h | h | h | h <;> subst h <;> decide

theorem uniqueName_no_slash (uuidVal : Nat) (ext : String) (h : ext ∈ ALLOWED_EXTENSIONS) :
    '/' ∉ (natToHex32 uuidVal ++ ext).toList := by
  rw [uniqueName_toList]
  intro hc
  rcases List.mem_append.mp hc with hm | hm
  · exact natToHexAux_mem (fun c => c ≠ '/') hexDigitChar_ne_slash 32 uuidVal []
      (by simp) '/' hm rfl
  · exact allowed_ext_no_slash ext h hm

theorem uniqueName_not_abs (uuidVal : Nat) (ext : String) :
    isAbsolutePath (natToHex32 uuidVal ++ ext) = false := by
  unfold isAbsolutePath
  rw [uniqueName_toList]
  rcases hlist : natToHexAux 32 uuidVal [] with _ | ⟨c, t⟩
  · have hl := natToHexAux_length 32 uuidVal
    rw [hlist] at hl
    simp at hl
  · have hc : c ≠ '/' := by
      have hm : c ∈ natToHexAux 32 uuidVal [] := by
        rw [hlist]
        exact List.mem_cons_self _ _
      exact natToHexAux_mem (fun x => x ≠ '/') hexDigitChar_ne_slash 32 uuidVal []
        (by simp) c hm
    simp [hc]

theorem resolveJoined_single (cwd : List String) (name : String)
    (hcwd : normalizedDir cwd = true)
    (hcomp : pathComponents name = [name])
    (habs : isAbsolutePath name = false)
    (hdd : name ≠ "..") :
    resolveJoined cwd name = mediaRoot cwd ++ [name] := by
  unfold resolveJoined
  rw [habs, hcomp]
  simp only [Bool.false_eq_true, if_false]
  apply normalize_no_dotdot
  intro c hc
  rcases List.mem_append.mp hc with h | h
  · unfold mediaRoot at h
    rcases List.mem_append.mp h with h' | h'
    · exact (normalizedDir_mem cwd hcwd c h').1
    · simp at h'
      rw [h']
      decide
  · simp at h
    rw [h]
    exact hdd

theorem isPrefixOf_self_append (l t : List String) : l.isPrefixOf (l ++ t) = true := by
  rw [List.isPrefixOf_iff_prefix]
  exact List.prefix_append l t

/-- Inversion of a successful upload: the token verified, the extension
was allowed, the size was within the limit, and the returned name, URL
and filesystem have the shapes the source builds. -/
theorem upload_ok_inv (cfg : AuthConfig) (now : Int) (cwd : List String) (fs fs' : FS)
    (baseUrl origName url name token : String) (contents : List Nat) (uuidVal : Nat)
    (hok : upload_image cfg now cwd fs baseUrl origName contents uuidVal token =
      .ok url name fs') :
    verify_upload_token cfg now token = none ∧
    lowerStr (pySuffix origName) ∈ ALLOWED_EXTENSIONS ∧
    contents.length ≤ MAX_FILE_SIZE ∧
    name = natToHex32 uuidVal ++ lowerStr (pySuffix origName) ∧
    url = baseUrl ++ "media/" ++ name ∧
    fs' = (mediaRoot cwd ++ [name], Entry.file contents) :: fs := by
  unfold upload_image at hok
  cases hv : verify_upload_token cfg now token with
  | some e =>
    rw [hv] at hok
    simp at hok
  | none =>
    rw [hv] at hok
    simp only at hok
    by_cases hext : lowerStr (pySuffix origName) ∈ ALLOWED_EXTENSIONS
    · rw [if_neg (not_not.mpr hext)] at hok
      by_cases hlen : contents.length > MAX_FILE_SIZE
      · rw [if_pos hlen] at hok
        simp at hok
      · rw [if_neg hlen] at hok
        simp only [UploadOutcome.ok.injEq] at hok
        obtain ⟨hurl, hname, hfs⟩ := hok
        subst hname
        exact ⟨rfl, hext, not_lt.mp hlen, rfl, hurl.symm, hfs.symm⟩
    · rw [if_pos hext] at hok
      simp at hok

/-- C4: with a verified token, an upload whose lowercased extension is
outside the allow-list fails `UnsupportedType` (HTTP 400) with the
filesystem unchanged; an allowed upload strictly larger than
`10 * 1024 * 1024` bytes fails `TooLarge` (HTTP 400) with the filesystem
unchanged; a payload of exactly 10 MiB is accepted. -/
theorem C4_upload_validation (cfg : AuthConfig) (now : Int) (cwd : List String)
    (fs : FS) (baseUrl origName token : String) (contents : List Nat) (uuidVal : Nat)
    (htok : verify_upload_token cfg now token = none) :
    (lowerStr (pySuffix origName) ∉ ALLOWED_EXTENSIONS →
      upload_image cfg now cwd fs baseUrl origName contents uuidVal token =
        .error .unsupportedType fs) ∧
    (lowerStr (pySuffix origName) ∈ ALLOWED_EXTENSIONS →
      contents.length > MAX_FILE_SIZE →
      upload_image cfg now cwd fs baseUrl origName contents uuidVal token =
        .error .tooLarge fs) ∧
    (lowerStr (pySuffix origName) ∈ ALLOWED_EXTENSIONS →
      contents.length = MAX_FILE_SIZE →
      ∃ url name fs',
        upload_image cfg now cwd fs baseUrl origName contents uuidVal token =
          .ok url name fs') ∧
    uploadErrorStatus .unsupportedType = 400 ∧
    uploadErrorStatus .tooLarge = 400 := by
  refine ⟨?_, ?_, ?_, rfl, rfl⟩
  · intro hext
    unfold upload_image
    simp only [htok]
    rw [if_pos hext]
  · intro hext hlen
    unfold upload_image
    simp only [htok]
    rw [if_neg (not_not.mpr hext), if_pos hlen]
  · intro hext hlen
    unfold upload_image
    simp only [htok]
    rw [if_neg (not_not.mpr hext), if_neg (by rw [hlen]; exact lt_irrefl _)]
    exact ⟨_, _, _, rfl⟩

/-- C4 witness: a `.exe` upload is rejected, a 10 MiB + 1 payload is
rejected, a 10 MiB payload is accepted. -/
theorem C4_witness :
    upload_image cfg0 5 cwd0 fs0 "http://h/" "malware.exe" [1] 0 tok0 =
      .error .unsupportedType fs0 ∧
    upload_image cfg0 5 cwd0 fs0 "http://h/" "big.png"
        (List.replicate (MAX_FILE_SIZE + 1) 0) 0 tok0 =
      .error .tooLarge fs0 ∧
    (∃ url name fs',
      upload_image cfg0 5 cwd0 fs0 "http://h/" "exact.png"
          (List.replicate MAX_FILE_SIZE 0) 0 tok0 =
        .ok url name fs') :=
  ⟨(C4_upload_validation cfg0 5 cwd0 fs0 "http://h/" "malware.exe" tok0 [1] 0
      (by decide)).1 (by decide),
   (C4_upload_validation cfg0 5 cwd0 fs0 "http://h/" "big.png" tok0
      (List.replicate (MAX_FILE_SIZE + 1) 0) 0 (by decide)).2.1 (by decide)
      (by rw [List.length_replicate]; omega),
   (C4_upload_validation cfg0 5 cwd0 fs0 "http://h/" "exact.png" tok0
      (List.replicate MAX_FILE_SIZE 0) 0 (by decide)).2.2.1 (by decide)
      (List.length_replicate MAX_FILE_SIZE 0)⟩

/-- C6: a successful upload returns a filename made of exactly 32
hexadecimal characters followed by the lowercased extension of the
supplied original filename, and a URL equal to the request's base address
followed by `media/` and the filename (so, writing the base address
without its trailing slash as `b`, the URL is `b ++ "/media/" ++
filename`). -/
theorem C6_filename_and_url (cfg : AuthConfig) (now : Int) (cwd : List String)
    (fs fs' : FS) (baseUrl origName url name token : String) (contents : List Nat)
    (uuidVal : Nat)
    (hok : upload_image cfg now cwd fs baseUrl origName contents uuidVal token =
      .ok url name fs') :
    name = natToHex32 uuidVal ++ lowerStr (pySuffix origName) ∧
    (natToHex32 uuidVal).length = 32 ∧
    (∀ c ∈ (natToHex32 uuidVal).toList, isHexDigitChar c) ∧
    url = baseUrl ++ "media/" ++ name ∧
    (∀ b, baseUrl = b ++ "/" → url = b ++ "/media/" ++ name) := by
  obtain ⟨hv, hext, hlen, hname, hurl, hfs⟩ :=
    upload_ok_inv cfg now cwd fs fs' baseUrl origName url name token contents uuidVal hok
  refine ⟨hname, ?_, ?_, hurl, ?_⟩
  · show (natToHexAux 32 uuidVal []).length = 32
    exact natToHexAux_length 32 uuidVal
  · intro c hc
    exact natToHexAux_mem isHexDigitChar hexDigitChar_hex 32 uuidVal [] (by simp) c hc
  · intro b hb
    rw [hurl, hb, String.append_assoc b "/" "media/"]
    rfl

/-- C6 witness: the theorem instantiated at a concrete upload. -/
theorem C6_witness :
    "00000000000000000000000000000000.png" =
      natToHex32 0 ++ lowerStr (pySuffix "photo.PNG") ∧
    (natToHex32 0).length = 32 ∧
    (∀ c ∈ (natToHex32 0).toList, isHexDigitChar c) ∧
    "http://h/media/00000000000000000000000000000000.png" =
      "http://h/" ++ "media/" ++ "00000000000000000000000000000000.png" ∧
    (∀ b, "http://h/" = b ++ "/" →
      "http://h/media/00000000000000000000000000000000.png" =
        b ++ "/media/" ++ "00000000000000000000000000000000.png") :=
  C6_filename_and_url cfg0 5 cwd0 fs0
    ((["home", "user", "media", "00000000000000000000000000000000.png"],
      Entry.file [1, 2, 3]) :: fs0)
    "http://h/" "photo.PNG" "http://h/media/00000000000000000000000000000000.png"
    "00000000000000000000000000000000.png" tok0 [1, 2, 3] 0 (by decide)

/-- C5: after a valid upload of content bytes `contents`, fetching the
returned filename succeeds and returns content byte-identical to
`contents`. -/
theorem C5_upload_fetch_roundtrip (cfg : AuthConfig) (now : Int) (cwd : List String)
    (fs fs' : FS) (baseUrl origName url name token : String) (contents : List Nat)
    (uuidVal : Nat)
    (hcwd : normalizedDir cwd = true)
    (hok : upload_image cfg now cwd fs baseUrl origName contents uuidVal token =
      .ok url name fs') :
    get_image cwd fs' name = .served contents := by
  obtain ⟨hv, hext, hlen, hname, hurl, hfs⟩ :=
    upload_ok_inv cfg now cwd fs fs' baseUrl origName url name token contents uuidVal hok
  subst hname
  subst hfs
  have hne := uniqueName_ne uuidVal (lowerStr (pySuffix origName))
  have hcomp : pathComponents (natToHex32 uuidVal ++ lowerStr (pySuffix origName)) =
      [natToHex32 uuidVal ++ lowerStr (pySuffix origName)] :=
    pathComponents_single _ (uniqueName_no_slash uuidVal _ hext) hne.1 hne.2.1
  have hres := resolveJoined_single cwd _ hcwd hcomp
    (uniqueName_not_abs uuidVal _) hne.2.2
  unfold get_image
  rw [mediaRootResolved_normalized cwd hcwd, hres, isPrefixOf_self_append]
  simp [fsLookup]

/-- C5 witness: a concrete upload of `[1, 2, 3]` fetched back intact. -/
theorem C5_witness :
    get_image cwd0
      ((["home", "user", "media", "00000000000000000000000000000000.png"],
        Entry.file [1, 2, 3]) :: fs0)
      "00000000000000000000000000000000.png" = .served [1, 2, 3] :=
  C5_upload_fetch_roundtrip cfg0 5 cwd0 fs0
    ((["home", "user", "media", "00000000000000000000000000000000.png"],
      Entry.file [1, 2, 3]) :: fs0)
    "http://h/" "photo.PNG" "http://h/media/00000000000000000000000000000000.png"
    "00000000000000000000000000000000.png" tok0 [1, 2, 3] 0 (by decide) (by decide)

/-! Helper lemmas for the listing handler. -/

theorem mediaRootResolved_ne_nil (cwd : List String) : mediaRootResolved cwd ≠ [] := by
  unfold mediaRootResolved mediaRoot normalizeComponents
  rw [List.foldl_append]
  simp

theorem fsLookup_eq_none_of_not_mem (fs : FS) (p : List String)
    (h : p ∉ fs.map Prod.fst) : fsLookup fs p = none := by
  induction fs with
  | nil => rfl
  | cons kv rest ih =>
    simp only [List.map_cons, List.mem_cons, not_or] at h
    unfold fsLookup
    rw [if_neg (fun e => h.1 e.symm)]
    exact ih h.2

theorem directFileNames_cons (cwd : List String) (kv : List String × Entry) (rest : FS) :
    directFileNames cwd (kv :: rest) =
      match (if (kv.1.dropLast == mediaRootResolved cwd && isFileEntry kv.2) = true
          then kv.1.getLast? else none) with
      | none => directFileNames cwd rest
      | some n => n :: directFileNames cwd rest := by
  unfold directFileNames
  rw [List.filterMap_cons]
  cases (if (kv.1.dropLast == mediaRootResolved cwd && isFileEntry kv.2) = true
      then kv.1.getLast? else none) <;> rfl

theorem directFileNames_mem (cwd : List String) :
    ∀ fs : FS, (fs.map Prod.fst).Nodup → ∀ name : String,
      (name ∈ directFileNames cwd fs ↔
        ∃ b, fsLookup fs (mediaRootResolved cwd ++ [name]) = some (Entry.file b)) := by
  intro fs
  induction fs with
  | nil =>
    intro _ name
    simp [directFileNames, fsLookup]
  | cons kv rest ih =>
    intro hnd name
    rw [List.map_cons, List.nodup_cons] at hnd
    obtain ⟨hk, hrest⟩ := hnd
    cases hcond : (kv.1.dropLast == mediaRootResolved cwd && isFileEntry kv.2) with
    | true =>
      obtain ⟨hdrop, hfile⟩ := Bool.and_eq_true_iff.mp hcond
      have hdrop' : kv.1.dropLast = mediaRootResolved cwd := beq_iff_eq.mp hdrop
      obtain ⟨b0, hb0⟩ : ∃ b0, kv.2 = Entry.file b0 := by
        cases h2 : kv.2
        · exact ⟨_, rfl⟩
        · rw [h2] at hfile
          simp [isFileEntry] at hfile
      have hne : kv.1 ≠ [] := by
        intro e
        rw [e] at hdrop'
        exact mediaRootResolved_ne_nil cwd hdrop'.symm
      have hsplit : kv.1 = mediaRootResolved cwd ++ [kv.1.getLast hne] := by
        conv_lhs => rw [← List.dropLast_append_getLast hne]
        rw [hdrop']
      rw [directFileNames_cons, if_pos hcond, List.getLast?_eq_getLast _ hne]
      show name ∈ kv.1.getLast hne :: directFileNames cwd rest ↔ _
      rw [List.mem_cons]
      by_cases hname : name = kv.1.getLast hne
      · refine iff_of_true (Or.inl hname) ⟨b0, ?_⟩
        unfold fsLookup
        rw [hname, if_pos hsplit, hb0]
      · have hkey : kv.1 ≠ mediaRootResolved cwd ++ [name] := by
          intro e
          rw [hsplit] at e
          exact hname (List.head_eq_of_cons_eq (List.append_cancel_left e)).symm
        unfold fsLookup
        rw [if_neg hkey, ih hrest name]
        simp [hname]
    | false =>
      rw [directFileNames_cons, if_neg (by simp [hcond])]
      show name ∈ directFileNames cwd rest ↔ _
      by_cases hq : kv.1 = mediaRootResolved cwd ++ [name]
      · have hA : (kv.1.dropLast == mediaRootResolved cwd) = true := by
          rw [hq, List.dropLast_concat]
          exact beq_self_eq_true _
        rw [hA, Bool.true_and] at hcond
        have hdir : kv.2 = Entry.dir := by
          cases h2 : kv.2
          · rw [h2] at hcond
            simp [isFileEntry] at hcond
          · rfl
        refine iff_of_false ?_ ?_
        · rw [ih hrest name]
          rintro ⟨b, hb⟩
          rw [← hq, fsLookup_eq_none_of_not_mem rest kv.1 hk] at hb
          exact Option.noConfusion hb
        · rintro ⟨b, hb⟩
          unfold fsLookup at hb
          rw [if_pos hq, hdir] at hb
          exact Entry.noConfusion (Option.some.inj hb)
      · unfold fsLookup
        rw [if_neg hq]
        exact ih hrest name

theorem directFileNames_nodup (cwd : List String) :
    ∀ fs : FS, (fs.map Prod.fst).Nodup → (directFileNames cwd fs).Nodup := by
  intro fs
  induction fs with
  | nil =>
    intro _
    simp [directFileNames]
  | cons kv rest ih =>
    intro hnd
    rw [List.map_cons, List.nodup_cons] at hnd
    obtain ⟨hk, hrest⟩ := hnd
    cases hcond : (kv.1.dropLast == mediaRootResolved cwd && isFileEntry kv.2) with
    | false =>
      rw [directFileNames_cons, if_neg (by simp [hcond])]
      exact ih hrest
    | true =>
      obtain ⟨hdrop, hfile⟩ := Bool.and_eq_true_iff.mp hcond
      have hdrop' : kv.1.dropLast = mediaRootResolved cwd := beq_iff_eq.mp hdrop
      have hne : kv.1 ≠ [] := by
        intro e
        rw [e] at hdrop'
        exact mediaRootResolved_ne_nil cwd hdrop'.symm
      have hsplit : kv.1 = mediaRootResolved cwd ++ [kv.1.getLast hne] := by
        conv_lhs => rw [← List.dropLast_append_getLast hne]
        rw [hdrop']
      rw [directFileNames_cons, if_pos hcond, List.getLast?_eq_getLast _ hne]
      show (kv.1.getLast hne :: directFileNames cwd rest).Nodup
      rw [List.nodup_cons]
      refine ⟨?_, ih hrest⟩
      intro hmem
      obtain ⟨b, hb⟩ := (directFileNames_mem cwd rest hrest (kv.1.getLast hne)).mp hmem
      rw [fsLookup_eq_none_of_not_mem rest _ (by rw [← hsplit]; exact hk)] at hb
      exact Option.noConfusion hb

theorem hexDigitChar_inj (a b : Nat) (ha : a < 16) (hb : b < 16)
    (h : hexDigitChar a = hexDigitChar b) : a = b := by
  interval_cases a <;> interval_cases b <;> revert h <;> decide

theorem natToHexAux_inj (k : Nat) : ∀ n m, natToHexAux k n [] = natToHexAux k m [] →
    n % 16 ^ k = m % 16 ^ k := by
  induction k with
  | zero =>
    intro n m _
    simp [Nat.mod_one]
  | succ k ih =>
    intro n m h
    simp only [natToHexAux] at h
    rw [natToHexAux_acc k (n / 16), natToHexAux_acc k (m / 16)] at h
    have hAB := List.append_inj h (by rw [natToHexAux_length, natToHexAux_length])
    have h1 : n / 16 % 16 ^ k = m / 16 % 16 ^ k := ih (n / 16) (m / 16) hAB.1
    have h2 : n % 16 = m % 16 := by
      have hd := List.head_eq_of_cons_eq hAB.2
      exact hexDigitChar_inj _ _ (Nat.mod_lt _ (by norm_num)) (Nat.mod_lt _ (by norm_num)) hd
    rw [pow_succ' 16 k, Nat.mod_mul, Nat.mod_mul, h1, h2]

theorem jobName_eq_uuid_mod (a b : UploadJob) (h : jobName a = jobName b) :
    a.uuidVal % 16 ^ 32 = b.uuidVal % 16 ^ 32 := by
  unfold jobName at h
  have h' := congrArg String.toList h
  rw [uniqueName_toList, uniqueName_toList] at h'
  have hAB := List.append_inj h' (by rw [natToHexAux_length, natToHexAux_length])
  exact natToHexAux_inj 32 _ _ hAB.1

theorem nodup_map_of_nodup_map {α β γ : Type} (f : α → β) (g : α → γ)
    (h : ∀ a b, f a = f b → g a = g b) :
    ∀ l : List α, (l.map g).Nodup → (l.map f).Nodup := by
  intro l
  induction l with
  | nil =>
    intro _
    simp
  | cons a t ih =>
    intro hnd
    simp only [List.map_cons, List.nodup_cons] at hnd ⊢
    refine ⟨?_, ih hnd.2⟩
    intro hmem
    obtain ⟨x, hx, hfx⟩ := List.mem_map.mp hmem
    exact hnd.1 (List.mem_map.mpr ⟨x, hx, h x a hfx⟩)

theorem uploadMany_entries (cfg : AuthConfig) (now : Int) (cwd : List String)
    (baseUrl token : String) (htok : verify_upload_token cfg now token = none) :
    ∀ (jobs : List UploadJob) (fs : FS),
      (∀ j ∈ jobs, lowerStr (pySuffix j.origName) ∈ ALLOWED_EXTENSIONS ∧
        j.contents.length ≤ MAX_FILE_SIZE) →
      uploadMany cfg now cwd baseUrl token fs jobs =
        (jobs.map (jobEntry cwd)).reverse ++ fs := by
  intro jobs
  induction jobs with
  | nil =>
    intro fs _
    simp [uploadMany]
  | cons j rest ih =>
    intro fs hj
    have hup : upload_image cfg now cwd fs baseUrl j.origName j.contents j.uuidVal token =
        .ok (baseUrl ++ "media/" ++ jobName j) (jobName j) (jobEntry cwd j :: fs) := by
      unfold upload_image
      simp only [htok]
      rw [if_neg (not_not.mpr (hj j (List.mem_cons_self _ _)).1),
        if_neg (not_lt.mpr (hj j (List.mem_cons_self _ _)).2)]
      rfl
    simp only [uploadMany, hup]
    rw [ih (jobEntry cwd j :: fs) (fun j' hj' => hj j' (List.mem_cons_of_mem _ hj'))]
    simp

theorem directFileNames_entries (cwd : List String) (hcwd : normalizedDir cwd = true) :
    ∀ (l : List UploadJob) (tailfs : FS),
      directFileNames cwd (l.map (jobEntry cwd) ++ tailfs) =
        l.map jobName ++ directFileNames cwd tailfs := by
  intro l
  induction l with
  | nil =>
    intro tailfs
    simp
  | cons j rest ih =>
    intro tailfs
    simp only [List.map_cons, List.cons_append]
    rw [directFileNames_cons]
    have hcond : ((jobEntry cwd j).1.dropLast == mediaRootResolved cwd &&
        isFileEntry (jobEntry cwd j).2) = true := by
      unfold jobEntry
      rw [mediaRootResolved_normalized cwd hcwd]
      simp [isFileEntry, List.dropLast_concat]
    rw [if_pos hcond]
    have hlast : (jobEntry cwd j).1.getLast? = some (jobName j) := by
      unfold jobEntry
      exact List.getLast?_concat _
    rw [hlast]
    show jobName j :: directFileNames cwd (rest.map (jobEntry cwd) ++ tailfs) = _
    rw [ih tailfs]

theorem list_images_filenames (cwd : List String) (fs : FS) (baseUrl : String) :
    (list_images cwd fs baseUrl).images.map ImageEntry.filename = directFileNames cwd fs := by
  simp only [list_images, List.map_map]
  have hcomp : (ImageEntry.filename ∘
      fun name => ImageEntry.mk name (baseUrl ++ "media/" ++ name)) = id := rfl
  rw [hcomp, List.map_id]

theorem list_images_count (cwd : List String) (fs : FS) (baseUrl : String) :
    (list_images cwd fs baseUrl).count = (directFileNames cwd fs).length := by
  simp [list_images]

/-- C9: the listing's count equals the number of regular files directly
under the storage root — a name appears among the listed filenames iff a
regular file sits at `root ++ [name]`, the listed filenames repeat no name
(for a well-formed filesystem), and every row's URL is the request base
address followed by `media/` and the filename; in particular, uploading N
distinctly-random files into an empty root and then listing yields
`count = N` with N distinct filenames. -/
theorem C9_list_contract (cwd : List String) (fs : FS) (baseUrl : String)
    (hnd : (fs.map Prod.fst).Nodup) :
    ((list_images cwd fs baseUrl).count = (list_images cwd fs baseUrl).images.length) ∧
    (∀ name, name ∈ (list_images cwd fs baseUrl).images.map ImageEntry.filename ↔
      ∃ b, fsLookup fs (mediaRootResolved cwd ++ [name]) = some (Entry.file b)) ∧
    ((list_images cwd fs baseUrl).images.map ImageEntry.filename).Nodup ∧
    (∀ e ∈ (list_images cwd fs baseUrl).images,
      e.url = baseUrl ++ "media/" ++ e.filename ∧
      ∀ b, baseUrl = b ++ "/" → e.url = b ++ "/media/" ++ e.filename) ∧
    (∀ (cfg : AuthConfig) (now : Int) (token : String) (jobs : List UploadJob),
      normalizedDir cwd = true →
      verify_upload_token cfg now token = none →
      (∀ j ∈ jobs, lowerStr (pySuffix j.origName) ∈ ALLOWED_EXTENSIONS ∧
        j.contents.length ≤ MAX_FILE_SIZE) →
      (jobs.map (fun j => j.uuidVal % 16 ^ 32)).Nodup →
      (list_images cwd
          (uploadMany cfg now cwd baseUrl token [(mediaRoot cwd, Entry.dir)] jobs)
          baseUrl).count = jobs.length ∧
      ((list_images cwd
          (uploadMany cfg now cwd baseUrl token [(mediaRoot cwd, Entry.dir)] jobs)
          baseUrl).images.map ImageEntry.filename).Nodup) := by
  refine ⟨rfl, ?_, ?_, ?_, ?_⟩
  · intro name
    rw [list_images_filenames]
    exact directFileNames_mem cwd fs hnd name
  · rw [list_images_filenames]
    exact directFileNames_nodup cwd fs hnd
  · intro e he
    simp only [list_images] at he
    obtain ⟨n, hn, rfl⟩ := List.mem_map.mp he
    refine ⟨rfl, ?_⟩
    intro b hb
    show baseUrl ++ "media/" ++ n = b ++ "/media/" ++ n
    rw [hb, String.append_assoc b "/" "media/"]
    rfl
  · intro cfg now token jobs hcwd htok hj hu
    have hdirnil : directFileNames cwd [(mediaRoot cwd, Entry.dir)] = [] := by
      simp [directFileNames, isFileEntry]
    have hfinal := uploadMany_entries cfg now cwd baseUrl token htok jobs
      [(mediaRoot cwd, Entry.dir)] hj
    have hrev : (jobs.map (jobEntry cwd)).reverse = jobs.reverse.map (jobEntry cwd) :=
      (List.map_reverse _ _).symm
    rw [hfinal, hrev]
    constructor
    · rw [list_images_count, directFileNames_entries cwd hcwd jobs.reverse _, hdirnil,
        List.append_nil]
      simp
    · rw [list_images_filenames, directFileNames_entries cwd hcwd jobs.reverse _, hdirnil,
        List.append_nil]
      have hu' : (jobs.reverse.map (fun j => j.uuidVal % 16 ^ 32)).Nodup := by
        rw [List.map_reverse]
        exact List.nodup_reverse.mpr hu
      exact nodup_map_of_nodup_map jobName (fun j => j.uuidVal % 16 ^ 32)
        jobName_eq_uuid_mod jobs.reverse hu'

/-- C9 witness: the lookup characterization at a one-file store, and two
uploads into an empty root listing back with `count = 2`. -/
theorem C9_witness :
    ("a.png" ∈ (list_images cwd0 fs1 "http://h/").images.map ImageEntry.filename ↔
      ∃ b, fsLookup fs1 (mediaRootResolved cwd0 ++ ["a.png"]) = some (Entry.file b)) ∧
    (list_images cwd0
        (uploadMany cfg0 5 cwd0 "http://h/" tok0 [(mediaRoot cwd0, Entry.dir)]
          [UploadJob.mk "a.PNG" [1] 0, UploadJob.mk "b.jpg" [2] 1])
        "http://h/").count =
      [UploadJob.mk "a.PNG" [1] 0, UploadJob.mk "b.jpg" [2] 1].length :=
  ⟨(C9_list_contract cwd0 fs1 "http://h/" (by decide)).2.1 "a.png",
   ((C9_list_contract cwd0 fs1 "http://h/" (by decide)).2.2.2.2 cfg0 5 tok0
      [UploadJob.mk "a.PNG" [1] 0, UploadJob.mk "b.jpg" [2] 1]
      (by decide) (by decide) (by decide) (by decide)).1⟩

end MediaServer